import Mathlib

/-!
Verification of the peptide_opt stochastic-search library.

The Rust sources (src/problem.rs, src/peptide.rs, src/tabu.rs,
src/genetic.rs, src/ga_neighbour.rs) are shallowly embedded below.
Modelling conventions:

* `u8`/`usize` amino-acid indices become `Nat`; `f32`/`f64` scores become
  `Rat` (the spec stipulates a totally ordered, never-NaN score type, and
  every property proved here is independent of rounding).
* The `rand` crate is external.  A generator is modelled as a stream of
  naturals together with a cursor (`Rng`); `StdRng::seed_from_u64` is an
  abstract parameter `stdRng : Nat → Nat → Nat` mapping a seed to a
  stream, and `thread_rng()` is an arbitrary `Rng` supplied by the
  environment (it is not derived from any seed).  `gen_range(0..n)` is
  `draw % n` (the Rust call panics for `n = 0`; theorems about places the
  source can reach with `n = 0` carry hypotheses excluding them).
  Rejection-sampling loops (`while new == old`) and the regeneration loop
  of ga_neighbour.rs are given fuel; on exhaustion they return a
  deterministic fallback, a modelling cutoff for loops the source leaves
  unbounded.
* The scoring tables (`data.rs`, the NEPRE table file) and the motif
  conversion through `AA_LETTERS` are external collaborators, so scores
  and motif index lists are fields of a `Scoring` parameter; the mutable
  globals `CURRENT_MOTIF_IDX` / `USE_BEST_MOTIF` are immutable fields of
  the same parameter, snapshotted for a run.
-/

namespace PeptideOpt

/-- Model of a pseudo-random generator: an infinite stream of raw draws
and a cursor.  Every `rand` call consumes one draw. -/
structure Rng where
  stream : Nat → Nat
  pos : Nat

/-- Consume one raw draw. -/
def Rng.next (r : Rng) : Nat × Rng :=
  (r.stream r.pos, { r with pos := r.pos + 1 })

/-- Build a generator positioned at the start of a stream. -/
def rngOf (f : Nat → Nat) : Rng :=
  { stream := f, pos := 0 }

/-- `rng.gen_range(0..n)`.  The Rust call panics when `n = 0`. -/
def genRange (r : Rng) (n : Nat) : Nat × Rng :=
  let p := r.next
  (p.1 % n, p.2)

/-- `rng.gen_range(lo..hi)`.  The Rust call panics when `hi ≤ lo`. -/
def genRangeFrom (r : Rng) (lo hi : Nat) : Nat × Rng :=
  let p := r.next
  (lo + p.1 % (hi - lo), p.2)

/-- Fuelled model of `loop: draw; break when the draw differs from
`avoid``.  On fuel exhaustion it falls back to `(avoid+1) % n`. -/
def genRangeNeAux (n avoid : Nat) : Nat → Rng → Nat × Rng
  | 0, r => ((avoid + 1) % n, r)
  | fuel + 1, r =>
    let p := genRange r n
    if p.1 = avoid then genRangeNeAux n avoid fuel p.2 else p

/-- `let mut v = gen_range(0..n); while v == avoid { v = gen_range(0..n) }`. -/
def genRangeNe (r : Rng) (n avoid : Nat) : Nat × Rng :=
  genRangeNeAux n avoid 20 r

/-- `rng.gen::<f32>()` / `rng.gen::<f64>()`: a rational in `[0,1)`. -/
def nextRat (r : Rng) : Rat × Rng :=
  let p := r.next
  (((p.1 % 1000000 : Nat) : Rat) / 1000000, p.2)

/-- `rng.gen::<bool>()`. -/
def nextBool (r : Rng) : Bool × Rng :=
  let p := r.next
  (p.1 % 2 == 1, p.2)

/-- `Vec::swap(i, j)` (Rust panics when an index is out of range). -/
def listSwap (l : List Nat) (i j : Nat) : List Nat :=
  (l.set i (l.getD j 0)).set j (l.getD i 0)

/-- External scoring collaborators of peptide.rs, plus the two
process-wide mode globals snapshotted as immutable fields. -/
structure Scoring where
  blosum : Nat → Nat → Int
  nepre : Nat → Nat → Rat
  motifs : List (List Nat)
  motifIdx : Nat
  useBestMotif : Bool

/-- `current_motif_len()` from peptide.rs. -/
def motifLen (sc : Scoring) : Nat :=
  (sc.motifs.getD sc.motifIdx []).length

/-- `PeptideProblem::energy` from peptide.rs: negative substitution score
of each position against the current motif, cyclically extended. -/
def energy (sc : Scoring) (ind : List Nat) : Int :=
  let mi := sc.motifs.getD sc.motifIdx []
  ((List.range ind.length).map
    (fun i => -(sc.blosum (ind.getD i 0) (mi.getD (i % mi.length) 0)))).sum

/-- `.min().unwrap_or(0)` over a list of energies. -/
def intListMin : List Int → Int
  | [] => 0
  | x :: xs => xs.foldl min x

/-- `PeptideProblem::energy_best_motif` from peptide.rs. -/
def energyBestMotif (sc : Scoring) (ind : List Nat) : Int :=
  intListMin ((List.range sc.motifs.length).map (fun midx =>
    let mi := sc.motifs.getD midx []
    ((List.range ind.length).map
      (fun i => -(sc.blosum (ind.getD i 0) (mi.getD (i % mi.length) 0)))).sum))

/-- `combined_fitness` from peptide.rs: BLOSUM term (against the current
motif or the best of the catalog) plus the pairwise NEPRE term over
consecutive symbol pairs. -/
def combinedFitness (sc : Scoring) (seq : List Nat) : Rat :=
  let blosumE : Rat :=
    if sc.useBestMotif then ((energyBestMotif sc seq : Int) : Rat)
    else ((energy sc seq : Int) : Rat)
  let nepreE : Rat := ((seq.zip seq.tail).map (fun w => sc.nepre w.1 w.2)).sum
  blosumE + nepreE

/-- The `HYDROPATHY` table of peptide.rs (f32 literals as exact
rationals). -/
def HYDROPATHY : List Rat :=
  [18/10, 25/10, -35/10, -35/10, 28/10, -4/10, -32/10, 45/10, -39/10,
   38/10, 19/10, -35/10, -16/10, -35/10, -45/10, -8/10, -7/10, 42/10,
   -9/10, -13/10]

/-- Inner loop of the homopolymer-run check of `is_biologically_valid`:
`run` counts the current run ending at `prev`; returns `false` as soon as
a run reaches length 4. -/
def noRun4Go (prev run : Nat) : List Nat → Bool
  | [] => true
  | y :: rest =>
    if y = prev then
      if 4 ≤ run + 1 then false else noRun4Go y (run + 1) rest
    else noRun4Go y 1 rest

/-- The `run` loop of `is_biologically_valid`: no run of 4 or more equal
consecutive symbols. -/
def noRun4 : List Nat → Bool
  | [] => true
  | x :: rest => noRun4Go x 1 rest

/-- The forbidden adjacent pairs of `is_biologically_valid`
(symbol 1 twice, or symbol 12 twice, i.e. CC or PP). -/
def hasForbiddenPair (seq : List Nat) : Bool :=
  (seq.zip seq.tail).any
    (fun w => (w.1 == 1 && w.2 == 1) || (w.1 == 12 && w.2 == 12))

/-- `is_biologically_valid` from peptide.rs: rejects the empty sequence,
mean hydropathy outside `[-1.5, 3.0]`, a forbidden adjacent pair, or a
homopolymer run of length at least 4. -/
def isBiologicallyValid (seq : List Nat) : Bool :=
  if seq.isEmpty then false
  else
    let avg : Rat := (seq.map (fun aa => HYDROPATHY.getD aa 0)).sum / (seq.length : Rat)
    if ¬ (-(15 : Rat)/10 ≤ avg ∧ avg ≤ 3) then false
    else if hasForbiddenPair seq then false
    else noRun4 seq

/-- Inner loop of `hill_climb_optimize` at one position: scan the 19
alternative symbols, keeping the best-scoring one whose full sequence
passes the validity predicate.  The accumulator is
`(best symbol so far, best score so far)`. -/
def hcInner (sc : Scoring) (seq : List Nat) (pos : Nat) (orig : Nat)
    (best : Rat) : Nat × Rat :=
  (List.range 20).foldl
    (fun acc aa =>
      if aa = orig then acc
      else
        let cand := seq.set pos aa
        if isBiologicallyValid cand then
          let score := combinedFitness sc cand
          if score < acc.2 then (aa, score) else acc
        else acc)
    (orig, best)

/-- One position of `hill_climb_optimize`: pick the best legal symbol and
commit it. -/
def hcStep (sc : Scoring) (acc : List Nat × Rat) (pos : Nat) : List Nat × Rat :=
  let orig := acc.1.getD pos 0
  let r := hcInner sc acc.1 pos orig acc.2
  (acc.1.set pos r.1, r.2)

/-- `hill_climb_optimize` from ga_neighbour.rs: one pass of positional
hill-climbing over the whole sequence. -/
def hillClimbOptimize (sc : Scoring) (seq : List Nat) : List Nat :=
  ((List.range seq.length).foldl (hcStep sc) (seq, combinedFitness sc seq)).1

/-- The `Move` enum of peptide.rs. -/
inductive Move where
  | Swap (p1 p2 : Nat)
  | Subst (pos old new : Nat)
  | Insert (pos aa : Nat)
  | Delete (pos aa : Nat)
deriving DecidableEq

/-- `PeptideProblem::random_individual`: `current_motif_len()` uniform
draws from the 20-symbol alphabet. -/
def randomIndividualP (sc : Scoring) (r : Rng) : List Nat × Rng :=
  (List.range (motifLen sc)).foldl
    (fun acc _ =>
      let p := genRange acc.2 20
      (acc.1 ++ [p.1], p.2))
    ([], r)

/-- `PeptideProblem::neighbourhood`: `size` attempts, each drawing an
operator (70 percent substitution, otherwise swap); a swap attempt on a
sequence shorter than 2 pushes nothing.  The substitution resample loop
(`while new == old`) and the swap resample loop (`while p2 == p1`) use
the fuelled model.  The Rust substitution branch panics on an empty
individual (`gen_range(0..0)`). -/
def neighbourhoodP : Nat → Rng → List Nat → List (List Nat × Move) × Rng
  | 0, r, _ => ([], r)
  | k + 1, r, ind =>
    let g := nextRat r
    if g.1 < 7/10 then
      let pp := genRange g.2 ind.length
      let old := ind.getD pp.1 0
      let nn := genRangeNe pp.2 20 old
      let rest := neighbourhoodP k nn.2 ind
      ((ind.set pp.1 nn.1, Move.Subst pp.1 old nn.1) :: rest.1, rest.2)
    else if 2 ≤ ind.length then
      let p1 := genRange g.2 ind.length
      let p2 := genRangeNe p1.2 ind.length p1.1
      let rest := neighbourhoodP k p2.2 ind
      ((listSwap ind p1.1 p2.1, Move.Swap p1.1 p2.1) :: rest.1, rest.2)
    else
      neighbourhoodP k g.2 ind

/-- `PeptideProblem::apply_move`; `none` models the Rust panics
(out-of-range index, or the unsupported `Insert` / `Delete` arms). -/
def applyMove (ind : List Nat) : Move → Option (List Nat)
  | Move.Subst pos _ nw =>
    if pos < ind.length then some (ind.set pos nw) else none
  | Move.Swap p1 p2 =>
    if p1 < ind.length ∧ p2 < ind.length then some (listSwap ind p1 p2) else none
  | Move.Insert _ _ => none
  | Move.Delete _ _ => none

/-- `PeptideProblem::repair`: pad with fresh draws below the target
length, truncate above it. -/
def repairP (sc : Scoring) (ind : List Nat) (r : Rng) : List Nat × Rng :=
  let t := motifLen sc
  if ind.length < t then
    (List.range (t - ind.length)).foldl
      (fun acc _ =>
        let p := genRange acc.2 20
        (acc.1 ++ [p.1], p.2))
      (ind, r)
  else if t < ind.length then (ind.take t, r)
  else (ind, r)

/-- A `TSProblem` instantiation as TabuSearch consumes it (problem.rs):
fitness, neighbourhood sampling and a random starting individual. -/
structure TSP (I M : Type) where
  randomIndividual : Rng → I × Rng
  fitness : I → Rat
  neighbourhood : Rng → I → Nat → List (I × M) × Rng

/-- `true` when `f` is strictly below the fitness of the currently chosen
candidate (`none` plays the role of the initial `f64::INFINITY`). -/
def betterThan {I M : Type} (f : Rat) : Option (I × M × Rat) → Bool
  | none => true
  | some x => if f < x.2.2 then true else false

/-- The candidate-selection loop of `TabuSearch::run` (tabu.rs lines
29-48).  A candidate is skipped when its move is tabu and its fitness is
at least the best-so-far score, and again when its move is tabu and the
aspiration test `f + 1.0 < fitness(curr)` fails; among the survivors the
first strictly-better candidate replaces the accumulator. -/
def selectCandidate {I M : Type} [DecidableEq M] (fit : I → Rat)
    (tabu : List M) (bestF : Rat) (curr : I) :
    List (I × M) → Option (I × M × Rat) → Option (I × M × Rat)
  | [], acc => acc
  | (cand, mv) :: rest, acc =>
    if mv ∈ tabu ∧ bestF ≤ fit cand then
      selectCandidate fit tabu bestF curr rest acc
    else
      let f := fit cand
      if mv ∈ tabu ∧ ¬ (f + 1 < fit curr) then
        selectCandidate fit tabu bestF curr rest acc
      else if betterThan f acc then
        selectCandidate fit tabu bestF curr rest (some (cand, mv, f))
      else
        selectCandidate fit tabu bestF curr rest acc

/-- The loop state of `TabuSearch::run`. -/
structure TabuState (I M : Type) where
  best : I
  curr : I
  bestF : Rat
  tabu : List M
  trace : List (Nat × Rat)
  rng : Rng

/-- The tabu-queue update of `TabuSearch::run` (tabu.rs lines 52-56):
pop the front when the queue length equals `tabuLen`, then push the new
move at the back. -/
def pushTabu {M : Type} (tabu : List M) (tabuLen : Nat) (mv : M) : List M :=
  (if tabu.length = tabuLen then tabu.tail else tabu) ++ [mv]

/-- The move-acceptance step of `TabuSearch::run` (tabu.rs lines 50-57):
a selected candidate becomes current and its move enters the tabu queue;
otherwise current and queue are unchanged. -/
def tabuAdvance {I M : Type} (tabu : List M) (tabuLen : Nat) (curr : I) :
    Option (I × M × Rat) → I × List M
  | some (ind, mv, _) => (ind, pushTabu tabu tabuLen mv)
  | none => (curr, tabu)

/-- One iteration of `TabuSearch::run` (tabu.rs lines 24-70): sample the
neighbourhood, select a candidate, move to it and push its move on the
tabu queue (evicting the front when the queue length equals `tabuLen`),
update the global best on strict improvement, record the trace entry,
and clear the queue on reheat iterations. -/
def tabuIter {I M : Type} [DecidableEq M] (P : TSP I M)
    (neighSize tabuLen : Nat) (st : TabuState I M) (it : Nat) :
    TabuState I M :=
  let ng := P.neighbourhood st.rng st.curr neighSize
  let chosen := selectCandidate P.fitness st.tabu st.bestF st.curr ng.1 none
  let ct := tabuAdvance st.tabu tabuLen st.curr chosen
  let currF := P.fitness ct.1
  let bb : I × Rat :=
    if currF < st.bestF then (ct.1, currF) else (st.best, st.bestF)
  let trace2 := st.trace ++ [(it, bb.2)]
  let tabu2 := if it % 10000 = 0 ∧ it ≠ 0 then [] else ct.2
  { best := bb.1, curr := ct.1, bestF := bb.2, tabu := tabu2,
    trace := trace2, rng := ng.2 }

/-- Initial state of `TabuSearch::run`: seed the generator, draw the
starting individual, and let best and current coincide. -/
def tabuInit {I M : Type} (P : TSP I M) (stdRng : Nat → Nat → Nat)
    (seed : Nat) : TabuState I M :=
  let bi := P.randomIndividual (rngOf (stdRng seed))
  { best := bi.1, curr := bi.1, bestF := P.fitness bi.1, tabu := [],
    trace := [], rng := bi.2 }

/-- State of `TabuSearch::run` after `k` iterations. -/
def tabuStateAfter {I M : Type} [DecidableEq M] (P : TSP I M)
    (stdRng : Nat → Nat → Nat) (neighSize tabuLen seed : Nat) :
    Nat → TabuState I M
  | 0 => tabuInit P stdRng seed
  | k + 1 =>
    tabuIter P neighSize tabuLen
      (tabuStateAfter P stdRng neighSize tabuLen seed k) k

/-- `TabuSearch::run`: the best individual and the per-iteration trace
after the fixed iteration budget. -/
def tabuRun {I M : Type} [DecidableEq M] (P : TSP I M)
    (stdRng : Nat → Nat → Nat) (iterations neighSize tabuLen seed : Nat) :
    I × List (Nat × Rat) :=
  let st := tabuStateAfter P stdRng neighSize tabuLen seed iterations
  (st.best, st.trace)

/-- The `Crossover` enum of genetic.rs. -/
inductive Crossover where
  | SinglePoint
  | Uniform
deriving DecidableEq

/-- The `GeneticAlgorithm` configuration struct of genetic.rs.  It is a
plain struct with public fields: there is no constructor and no
validation. -/
structure GACfg where
  populationSize : Nat
  generations : Nat
  crossoverProb : Rat
  crossover : Crossover
  mutationProb : Rat
  tournamentSize : Nat

/-- Index of the first minimum of a fitness list, the behaviour of
`.enumerate().min_by(...)` in `NeighbourGA::best` (ties keep the first
element).  Rust unwraps, panicking on an empty list; here the result for
`[]` is 0. -/
def bestIdxGo (i bi : Nat) (bf : Rat) : List Rat → Nat
  | [] => bi
  | f :: rest =>
    if f < bf then bestIdxGo (i + 1) i f rest else bestIdxGo (i + 1) bi bf rest

/-- First index of the minimum fitness. -/
def bestIdx : List Rat → Nat
  | [] => 0
  | f :: rest => bestIdxGo 1 0 f rest

/-- The element of `l` whose fitness is first-minimal; models the
`min_by` comparator chains of genetic.rs, which compare
`combined_fitness` of the two sides. -/
def bestOf (sc : Scoring) (l : List (List Nat)) : List Nat :=
  l.getD (bestIdx (l.map (combinedFitness sc))) []

/-- `GeneticAlgorithm::tournament_selection`: `tournament_size` indices
drawn with replacement, then the first-minimal member by fitness.  Rust
panics when the population or the tournament is empty. -/
def gaTournament (sc : Scoring) (cfg : GACfg) (pop : List (List Nat))
    (r : Rng) : List Nat × Rng :=
  let drawn := (List.range cfg.tournamentSize).foldl
    (fun (acc : List (List Nat) × Rng) _ =>
      let p := genRange acc.2 pop.length
      (acc.1 ++ [pop.getD p.1 []], p.2))
    ([], r)
  (bestOf sc drawn.1, drawn.2)

/-- `GeneticAlgorithm::crossover`: gated by `crossover_prob`; single
point at a cut in `1..min(lenA,lenB)` (Rust panics when that range is
empty), or a per-position coin over `0..min(lenA,lenB)`; otherwise a
clone of parent 1. -/
def gaCrossover (cfg : GACfg) (p1 p2 : List Nat) (r : Rng) :
    List Nat × Rng :=
  let g := nextRat r
  if g.1 < cfg.crossoverProb then
    match cfg.crossover with
    | Crossover.SinglePoint =>
      let m := min p1.length p2.length
      let pt := genRangeFrom g.2 1 m
      (p1.take pt.1 ++ p2.drop (min pt.1 p2.length), pt.2)
    | Crossover.Uniform =>
      (List.range (min p1.length p2.length)).foldl
        (fun (acc : List Nat × Rng) i =>
          let c := nextRat acc.2
          if c.1 < 1/2 then (acc.1 ++ [p1.getD i 0], c.2)
          else (acc.1 ++ [p2.getD i 0], c.2))
        ([], g.2)
  else (p1, g.2)

/-- `GeneticAlgorithm::mutate` (genetic.rs lines 120-144): gated by
`mutation_prob`; a draw below 0.7 substitutes one position by a
different symbol, otherwise two distinct positions are swapped when the
length allows it.  Only these two fixed-length operators exist. -/
def gaMutate (mutationProb : Rat) (r : Rng) (ind : List Nat) :
    List Nat × Rng :=
  let g := nextRat r
  if g.1 < mutationProb then
    let rr := nextRat g.2
    if rr.1 < 7/10 then
      let pp := genRange rr.2 ind.length
      let old := ind.getD pp.1 0
      let nn := genRangeNe pp.2 20 old
      (ind.set pp.1 nn.1, nn.2)
    else if 2 ≤ ind.length then
      let p1 := genRange rr.2 ind.length
      let p2 := genRangeNe p1.2 ind.length p1.1
      (listSwap ind p1.1 p2.1, p2.2)
    else (ind, rr.2)
  else (ind, g.2)

/-- `GeneticAlgorithm::evolve`: refill the population with offspring,
one per loop turn (two tournaments, crossover, mutation). -/
def gaEvolve (sc : Scoring) (cfg : GACfg) (pop : List (List Nat))
    (r : Rng) : List (List Nat) × Rng :=
  (List.range cfg.populationSize).foldl
    (fun (acc : List (List Nat) × Rng) _ =>
      let t1 := gaTournament sc cfg pop acc.2
      let t2 := gaTournament sc cfg pop t1.2
      let cr := gaCrossover cfg t1.1 t2.1 t2.2
      let mu := gaMutate cfg.mutationProb cr.2 cr.1
      (acc.1 ++ [mu.1], mu.2))
    ([], r)

/-- Minimum of a fitness list (`.min_by(...).unwrap()`; 0 for `[]`,
where Rust panics). -/
def ratListMin : List Rat → Rat
  | [] => 0
  | x :: xs => xs.foldl min x

/-- Maximum of a fitness list (`.max_by(...).unwrap()`; 0 for `[]`,
where Rust panics). -/
def ratListMax : List Rat → Rat
  | [] => 0
  | x :: xs => xs.foldl max x

/-- Loop state of `GeneticAlgorithm::run`. -/
structure GAState where
  population : List (List Nat)
  progress : List (Nat × Rat × Rat × Rat)
  rng : Rng

/-- One generation of `GeneticAlgorithm::run`: evolve, then record
`(index, min, max, mean)` of the fitness distribution. -/
def gaStep (sc : Scoring) (cfg : GACfg) (st : GAState) (i : Nat) : GAState :=
  let ev := gaEvolve sc cfg st.population st.rng
  let fits := ev.1.map (combinedFitness sc)
  { population := ev.1,
    progress := st.progress ++
      [(i, ratListMin fits, ratListMax fits, fits.sum / (fits.length : Rat))],
    rng := ev.2 }

/-- State of `GeneticAlgorithm::run` after `k` generations. -/
def gaStateAfter (sc : Scoring) (cfg : GACfg) (stdRng : Nat → Nat → Nat)
    (seed : Nat) : Nat → GAState
  | 0 =>
    let ip := (List.range cfg.populationSize).foldl
      (fun (acc : List (List Nat) × Rng) _ =>
        let p := randomIndividualP sc acc.2
        (acc.1 ++ [p.1], p.2))
      ([], rngOf (stdRng seed))
    { population := ip.1, progress := [], rng := ip.2 }
  | k + 1 => gaStep sc cfg (gaStateAfter sc cfg stdRng seed k) k

/-- `GeneticAlgorithm::run`: the first-minimal individual of the final
population and the per-generation progress trace. -/
def gaRun (sc : Scoring) (cfg : GACfg) (stdRng : Nat → Nat → Nat)
    (seed : Nat) : List Nat × List (Nat × Rat × Rat × Rat) :=
  let st := gaStateAfter sc cfg stdRng seed cfg.generations
  (bestOf sc st.population, st.progress)

/-- The `NeighCfg` struct of ga_neighbour.rs. -/
structure NeighCfg where
  popSize : Nat
  crossoverP : Rat
  mutationP : Rat
  smartXover : Bool
  maxGens : Nat

/-- The `NeighbourGA` engine state of ga_neighbour.rs: configuration,
the thread-local generator handle, the population and its cached
fitness vector. -/
structure NeighbourGA where
  cfg : NeighCfg
  rng : Rng
  population : List (List Nat)
  fitness : List Rat

/-- `smart_uniform` from ga_neighbour.rs: start from a clone of parent
A; at every disagreeing position keep the allele whose full-sequence
fitness is lower; finally re-randomize position 0 to parent B's allele
with probability one half. -/
def smartUniform (sc : Scoring) (pa pb : List Nat) (r : Rng) :
    List Nat × Rng :=
  let child := (List.range pa.length).foldl
    (fun c i =>
      if pa.getD i 0 = pb.getD i 0 then c
      else
        let fitB := combinedFitness sc (c.set i (pb.getD i 0))
        let fitA := combinedFitness sc c
        if fitB < fitA then c.set i (pb.getD i 0) else c)
    pa
  let b := nextBool r
  if b.1 then (child.set 0 (pb.getD 0 0), b.2) else (child, b.2)

/-- `uniform_crossover` from ga_neighbour.rs: an independent coin per
position of parent A exchanges the alleles of the two children. -/
def uniformCrossover (a b : List Nat) (r : Rng) :
    (List Nat × List Nat) × Rng :=
  (List.range a.length).foldl
    (fun (acc : (List Nat × List Nat) × Rng) i =>
      let c := nextBool acc.2
      if c.1 then
        ((acc.1.1.set i (b.getD i 0), acc.1.2.set i (a.getD i 0)), c.2)
      else (acc.1, c.2))
    ((a, b), r)

/-- `mutate_substitution` from ga_neighbour.rs: one position replaced by
a fresh draw (possibly equal to the old symbol). -/
def mutateSubstitution (seq : List Nat) (r : Rng) : List Nat × Rng :=
  let p := genRange r seq.length
  let v := genRange p.2 20
  (seq.set p.1 v.1, v.2)

/-- Reverse the inclusive segment `i..=j` of a list. -/
def listReverseSeg (l : List Nat) (i j : Nat) : List Nat :=
  l.take i ++ ((l.drop i).take (j + 1 - i)).reverse ++ l.drop (j + 1)

/-- `mutate_inversion` from ga_neighbour.rs: reverse a random contiguous
segment; a no-op below length 3. -/
def mutateInversion (seq : List Nat) (r : Rng) : List Nat × Rng :=
  if seq.length < 3 then (seq, r)
  else
    let i := genRange r (seq.length - 1)
    let j := genRangeFrom i.2 (i.1 + 1) seq.length
    (listReverseSeg seq i.1 j.1, j.2)

/-- `mutate_all` from ga_neighbour.rs: substitution and inversion, each
gated independently by the mutation probability. -/
def mutateAll (p : Rat) (seq : List Nat) (r : Rng) : List Nat × Rng :=
  let g1 := nextRat r
  let s1 := if g1.1 < p then mutateSubstitution seq g1.2 else (seq, g1.2)
  let g2 := nextRat s1.2
  if g2.1 < p then mutateInversion s1.1 g2.2 else (s1.1, g2.2)

/-- `NeighbourGA::tournament_pick` with `k` participants: the index of
the first-minimal fitness among `k` uniform draws. -/
def tournamentPick (fit : List Rat) (popLen : Nat) (r : Rng) (k : Nat) :
    Nat × Rng :=
  let i0 := genRange r popLen
  (List.range (k - 1)).foldl
    (fun (acc : Nat × Rng) _ =>
      let p := genRange acc.2 popLen
      if fit.getD p.1 0 < fit.getD acc.1 0 then (p.1, p.2) else (acc.1, p.2))
    i0

/-- The hill-climbing gate of `step_generation` for one child: when
smart crossover is on, with probability 0.2 roll a length-dependent
second gate and run `hill_climb_optimize` when it passes.  When smart
crossover is off no draw is consumed (Rust `&&` short-circuits). -/
def hcGate (sc : Scoring) (cfg : NeighCfg) (child : List Nat) (r : Rng) :
    List Nat × Rng :=
  if cfg.smartXover then
    let g := nextRat r
    if g.1 < 2/10 then
      let lcProb : Rat := if child.length ≤ 5 then 6/10 else 2/10
      let g2 := nextRat g.2
      if g2.1 < lcProb then (hillClimbOptimize sc child, g2.2) else (child, g2.2)
    else (child, g.2)
  else (child, r)

/-- Fuelled model of the domain-validity regeneration loop of
`step_generation`: draw a fresh individual, repair it, retest; the Rust
loop is unbounded, so on fuel exhaustion the last candidate is returned
unchecked. -/
def regenValid (sc : Scoring) : Nat → Rng → List Nat × Rng
  | 0, r => randomIndividualP sc r
  | fuel + 1, r =>
    let c := randomIndividualP sc r
    let rp := repairP sc c.1 c.2
    if isBiologicallyValid rp.1 then rp else regenValid sc fuel rp.2

/-- Fuel given to the regeneration loop model. -/
def regenFuel : Nat := 1000

/-- The biological-plausibility filter of `step_generation`: an invalid
child is replaced through the regeneration loop. -/
def validFilter (sc : Scoring) (child : List Nat) (r : Rng) :
    List Nat × Rng :=
  if isBiologicallyValid child then (child, r) else regenValid sc regenFuel r

/-- One turn of the refill loop of `NeighbourGA::step_generation`: two
tournament picks, gated crossover (two smart-uniform children or plain
uniform crossover), mutation, repair, the hill-climbing gates, and the
validity filter for both children. -/
def makeChildren (sc : Scoring) (cfg : NeighCfg) (pop : List (List Nat))
    (fit : List Rat) (r : Rng) : (List Nat × List Nat) × Rng :=
  let t1 := tournamentPick fit pop.length r 3
  let t2 := tournamentPick fit pop.length t1.2 3
  let pa := pop.getD t1.1 []
  let pb := pop.getD t2.1 []
  let g := nextRat t2.2
  let cr : (List Nat × List Nat) × Rng :=
    if g.1 < cfg.crossoverP then
      if cfg.smartXover then
        let s1 := smartUniform sc pa pb g.2
        let s2 := smartUniform sc pb pa s1.2
        ((s1.1, s2.1), s2.2)
      else uniformCrossover pa pb g.2
    else ((pa, pb), g.2)
  let m1 := mutateAll cfg.mutationP cr.1.1 cr.2
  let m2 := mutateAll cfg.mutationP cr.1.2 m1.2
  let rp1 := repairP sc m1.1 m2.2
  let rp2 := repairP sc m2.1 rp1.2
  let h1 := hcGate sc cfg rp1.1 rp2.2
  let h2 := hcGate sc cfg rp2.1 h1.2
  let v1 := validFilter sc h1.1 h2.2
  let v2 := validFilter sc h2.1 v1.2
  ((v1.1, v2.1), v2.2)

/-- The refill loop of `step_generation`: generate child pairs until the
next population reaches `popSize` (the second child is dropped when only
one slot is left).  The loop adds at least one individual per turn, so
fuel `popSize` is exact. -/
def buildNextPop (sc : Scoring) (cfg : NeighCfg) (pop : List (List Nat))
    (fit : List Rat) : Nat → List (List Nat) → Rng → List (List Nat) × Rng
  | 0, acc, r => (acc, r)
  | fuel + 1, acc, r =>
    if acc.length < cfg.popSize then
      let mc := makeChildren sc cfg pop fit r
      let acc1 := acc ++ [mc.1.1]
      let acc2 := if acc1.length < cfg.popSize then acc1 ++ [mc.1.2] else acc1
      buildNextPop sc cfg pop fit fuel acc2 mc.2
    else (acc, r)

/-- The elitism step of `step_generation` (ga_neighbour.rs lines
147-155), applied after the new population has already replaced the old
one and been evaluated: take the first-minimal individual of the *new*
population, and overwrite one random slot with it when it is absent.
The fitness vector is not refreshed by the overwrite. -/
def elitismFix (nextPop : List (List Nat)) (fit : List Rat) (r : Rng) :
    List (List Nat) × Rng :=
  let elite := nextPop.getD (bestIdx fit) []
  if elite ∈ nextPop then (nextPop, r)
  else
    let p := genRange r nextPop.length
    (nextPop.set p.1 elite, p.2)

/-- `NeighbourGA::step_generation`: refill, evaluate, then the elitism
step. -/
def NeighbourGA.stepGeneration (sc : Scoring) (st : NeighbourGA) :
    NeighbourGA :=
  let bp := buildNextPop sc st.cfg st.population st.fitness
    st.cfg.popSize [] st.rng
  let fit2 := bp.1.map (combinedFitness sc)
  let ef := elitismFix bp.1 fit2 bp.2
  { cfg := st.cfg, rng := ef.2, population := ef.1, fitness := fit2 }

/-- `NeighbourGA::new`: draw `pop_size` random individuals from the
thread-local generator (no seed parameter exists) and evaluate them.
No configuration validation is performed. -/
def NeighbourGA.new (sc : Scoring) (cfg : NeighCfg) (threadRng : Rng) :
    NeighbourGA :=
  let pp := (List.range cfg.popSize).foldl
    (fun (acc : List (List Nat) × Rng) _ =>
      let p := randomIndividualP sc acc.2
      (acc.1 ++ [p.1], p.2))
    ([], threadRng)
  { cfg := cfg, rng := pp.2, population := pp.1,
    fitness := pp.1.map (combinedFitness sc) }

/-- `NeighbourGA` state after `k` generations. -/
def ngaStateAfter (sc : Scoring) (cfg : NeighCfg) (threadRng : Rng) :
    Nat → NeighbourGA
  | 0 => NeighbourGA.new sc cfg threadRng
  | k + 1 => NeighbourGA.stepGeneration sc (ngaStateAfter sc cfg threadRng k)

/-- `NeighbourGA::run`: `max_gens` generations, then the first-minimal
individual of the final population.  The only random source is the
thread-local generator captured at construction. -/
def NeighbourGA.run (sc : Scoring) (cfg : NeighCfg) (threadRng : Rng) :
    List Nat :=
  let st := ngaStateAfter sc cfg threadRng cfg.maxGens
  st.population.getD (bestIdx st.fitness) []

/-- Non-increasing best-score component of a TabuSearch trace. -/
def traceNonInc (l : List (Nat × Rat)) : Prop :=
  ∀ i j : Nat, i ≤ j → j < l.length → (l.getD j (0, 0)).2 ≤ (l.getD i (0, 0)).2

/-- A concrete scoring environment for evaluation: zero score tables and
one length-3 motif. -/
def exScoring : Scoring :=
  { blosum := fun _ _ => 0, nepre := fun _ _ => 0, motifs := [[0, 0, 0]],
    motifIdx := 0, useBestMotif := false }

/-- A degenerate model of `StdRng::seed_from_u64`: every seed yields the
all-zero stream. -/
def stdRng0 : Nat → Nat → Nat := fun _ _ => 0

/-- The all-zero raw-draw stream. -/
def z0 : Nat → Nat := fun _ => 0

/-- The all-one raw-draw stream. -/
def z1 : Nat → Nat := fun _ => 1

/-- A concrete problem instantiation for the generic TabuSearch: the
individual is a counter, each neighbourhood contains the single
candidate `ind + 1` recorded as move `ind + 1`, and fitness is
constantly zero. -/
def P0 : TSP Nat Nat :=
  { randomIndividual := fun r => (0, r),
    fitness := fun _ => 0,
    neighbourhood := fun r ind _ => ([(ind + 1, ind + 1)], r) }

/-- A fitness function on counter individuals whose value at 9 is 10 and
0 elsewhere, used to exhibit aspiration-related scenarios. -/
def fitW : Nat → Rat := fun n => if n = 9 then 10 else 0

/-- A concrete baseline-GA configuration. -/
def gaCfg0 : GACfg :=
  { populationSize := 1, generations := 1, crossoverProb := 0,
    crossover := Crossover.Uniform, mutationProb := 0, tournamentSize := 1 }

/-- A concrete NeighbourGA configuration with zero generations. -/
def ngCfg0 : NeighCfg :=
  { popSize := 1, crossoverP := 9/10, mutationP := 1/4, smartXover := true,
    maxGens := 0 }

/-- An out-of-range NeighbourGA configuration: empty population,
crossover probability above 1, negative mutation probability. -/
def ngCfgBad : NeighCfg :=
  { popSize := 0, crossoverP := 2, mutationP := -1, smartXover := true,
    maxGens := 1 }

/-- A concrete NeighbourGA state over `exScoring` with one individual. -/
def ngSt0 : NeighbourGA :=
  { cfg := { popSize := 1, crossoverP := 0, mutationP := 0,
             smartXover := false, maxGens := 1 },
    rng := rngOf z0, population := [[0, 0, 0]], fitness := [0] }

theorem foldl_preserve {α β : Type _} (P : β → Prop) (f : β → α → β) :
    ∀ (l : List α), (∀ b a, a ∈ l → P b → P (f b a)) →
      ∀ b, P b → P (l.foldl f b) := by
  intro l
  induction l with
  | nil => intro _ b hb; exact hb
  | cons x xs ih =>
    intro h b hb
    exact ih (fun b a ha hb2 => h b a (List.mem_cons_of_mem _ ha) hb2)
      (f b x) (h b x (List.mem_cons_self x xs) hb)

theorem getD_mem {α : Type _} :
    ∀ (l : List α) (i : Nat) (d : α), i < l.length → l.getD i d ∈ l := by
  intro l
  induction l with
  | nil => intro i d h; exact absurd h (Nat.not_lt_zero i)
  | cons x xs ih =>
    intro i d h
    cases i with
    | zero => simp [List.getD_cons_zero]
    | succ n =>
      rw [List.getD_cons_succ]
      exact List.mem_cons_of_mem _ (ih n d (Nat.lt_of_succ_lt_succ h))

theorem set_getD_self :
    ∀ (l : List Nat) (i : Nat), i < l.length → l.set i (l.getD i 0) = l := by
  intro l
  induction l with
  | nil => intro i h; exact absurd h (Nat.not_lt_zero i)
  | cons x xs ih =>
    intro i h
    cases i with
    | zero => simp [List.getD_cons_zero]
    | succ n =>
      rw [List.getD_cons_succ, List.set_cons_succ]
      rw [ih n (Nat.lt_of_succ_lt_succ h)]

theorem listSwap_length (l : List Nat) (i j : Nat) :
    (listSwap l i j).length = l.length := by
  simp [listSwap]

theorem foldl_snoc_length {α : Type _} (g : List (List Nat) × Rng → α → List Nat)
    (h : List (List Nat) × Rng → α → Rng) :
    ∀ (l : List α) (acc : List (List Nat) × Rng),
      (l.foldl (fun acc a => (acc.1 ++ [g acc a], h acc a)) acc).1.length =
        acc.1.length + l.length := by
  intro l
  induction l with
  | nil => intro acc; rfl
  | cons x xs ih =>
    intro acc
    rw [List.foldl_cons, ih]
    simp
    omega

theorem nga_new_population_length (sc : Scoring) (cfg : NeighCfg) (r : Rng) :
    (NeighbourGA.new sc cfg r).population.length = cfg.popSize := by
  show ((List.range cfg.popSize).foldl _ ([], r)).1.length = cfg.popSize
  rw [foldl_snoc_length (fun acc _ => (randomIndividualP sc acc.2).1)
    (fun acc _ => (randomIndividualP sc acc.2).2)]
  simp

/-- Claim C1 (amended): the two seeded engines, `TabuSearch::run` and
`GeneticAlgorithm::run`, are deterministic functions of their
configuration and seed — two runs with the same seed produce
bit-identical best individuals and traces.  (`NeighbourGA` is the
exception refuted by the counterexample: it takes no seed and reads the
thread-local generator, so its output is not determined by
configuration alone.) -/
theorem claim1_seeded_engines_deterministic :
    ∀ {I M : Type} [DecidableEq M] (P : TSP I M)
      (stdRng : Nat → Nat → Nat) (iterations neighSize tabuLen : Nat)
      (sc : Scoring) (cfg : GACfg) (s1 s2 : Nat), s1 = s2 →
      tabuRun P stdRng iterations neighSize tabuLen s1 =
        tabuRun P stdRng iterations neighSize tabuLen s2 ∧
      gaRun sc cfg stdRng s1 = gaRun sc cfg stdRng s2 := by
  intro I M _ P stdRng it ns L sc cfg s1 s2 h
  subst h
  exact ⟨rfl, rfl⟩

/-- Witness for claim C1 at a concrete problem, configuration and
seed. -/
theorem claim1_witness :
    tabuRun P0 stdRng0 1 1 1 0 = tabuRun P0 stdRng0 1 1 1 0 ∧
    gaRun exScoring gaCfg0 stdRng0 0 = gaRun exScoring gaCfg0 stdRng0 0 :=
  claim1_seeded_engines_deterministic P0 stdRng0 1 1 1 exScoring gaCfg0 0 0
    rfl

/-- Claim C1 counterexample: `NeighbourGA::run` under one configuration
yields different outputs for two different thread-local generator
streams, so its output is not a deterministic function of configuration
and seed (it accepts no seed at all). -/
theorem claim1_counterexample :
    NeighbourGA.run exScoring ngCfg0 (rngOf z0) ≠
      NeighbourGA.run exScoring ngCfg0 (rngOf z1) := by
  decide

/-- Claim C4 (amended): no engine performs construction-time
validation.  `NeighbourGA::new` accepts every configuration — including
zero population size and probabilities outside `[0,1]` — storing it
unchecked and building exactly `pop_size` individuals; `GeneticAlgorithm`
is a plain struct with no constructor at all. -/
theorem claim4_no_construction_validation :
    ∀ (sc : Scoring) (cfg : NeighCfg) (r : Rng),
      (NeighbourGA.new sc cfg r).population.length = cfg.popSize ∧
      (NeighbourGA.new sc cfg r).cfg = cfg := by
  intro sc cfg r
  exact ⟨nga_new_population_length sc cfg r, rfl⟩

/-- Claim C4 counterexample: constructing `NeighbourGA` with population
size 0, crossover probability 2 and mutation probability -1 is accepted
(the engine is built, with an empty population), not rejected with an
error. -/
theorem claim4_counterexample :
    (NeighbourGA.new exScoring ngCfgBad (rngOf z0)).population = [] ∧
    ngCfgBad.popSize = 0 ∧ (1 : Rat) < ngCfgBad.crossoverP ∧
    ngCfgBad.mutationP < 0 := by
  refine ⟨?_, rfl, by decide, by decide⟩
  decide

theorem gaMutate_length (mp : Rat) (r : Rng) (ind : List Nat) :
    (gaMutate mp r ind).1.length = ind.length := by
  unfold gaMutate
  by_cases h1 : (nextRat r).1 < mp <;>
    by_cases h2 : (nextRat (nextRat r).2).1 < 7/10 <;>
      by_cases h3 : 2 ≤ ind.length <;>
        simp [h1, h2, h3, listSwap]

/-- Claim C6 (amended): `GeneticAlgorithm::mutate` is gated by the
mutation probability and then chooses between exactly two fixed-length
operators — substitution of one position by a different symbol (weight
0.7) or a swap of two distinct positions — so the mutated individual's
length always equals the input's length; insertion and deletion are not
performed. -/
theorem claim6_mutation_preserves_length :
    ∀ (mp : Rat) (r : Rng) (ind : List Nat),
      (gaMutate mp r ind).1.length = ind.length :=
  fun mp r ind => gaMutate_length mp r ind

/-- Claim C6 counterexample: contrary to the claim, there is no random
outcome for which mutation changes the length of the concrete
individual `[0, 1, 2]`, even with the mutation gate forced open. -/
theorem claim6_counterexample :
    ¬ ∃ s : Nat → Nat, (gaMutate 1 (rngOf s) [0, 1, 2]).1.length ≠ 3 := by
  intro h
  obtain ⟨s, hs⟩ := h
  exact hs (gaMutate_length 1 (rngOf s) [0, 1, 2])

theorem selectCandidate_some_inv {I M : Type} [DecidableEq M]
    (fit : I → Rat) (tabu : List M) (bestF : Rat) (curr : I) :
    ∀ (neigh : List (I × M)) (acc : Option (I × M × Rat)),
      (∀ c m f, acc = some (c, m, f) →
        m ∈ tabu → fit c < bestF ∧ fit c + 1 < fit curr) →
      ∀ c m f,
        selectCandidate fit tabu bestF curr neigh acc = some (c, m, f) →
        m ∈ tabu → fit c < bestF ∧ fit c + 1 < fit curr := by
  intro neigh
  induction neigh with
  | nil =>
    intro acc hacc c m f hsel
    rw [selectCandidate] at hsel
    exact hacc c m f hsel
  | cons p rest ih =>
    obtain ⟨cand, mv⟩ := p
    intro acc hacc c m f hsel
    rw [selectCandidate] at hsel
    by_cases h1 : mv ∈ tabu ∧ bestF ≤ fit cand
    · rw [if_pos h1] at hsel
      exact ih acc hacc c m f hsel
    · rw [if_neg h1] at hsel
      by_cases h2 : mv ∈ tabu ∧ ¬ (fit cand + 1 < fit curr)
      · rw [if_pos h2] at hsel
        exact ih acc hacc c m f hsel
      · rw [if_neg h2] at hsel
        by_cases h3 : betterThan (fit cand) acc = true
        · rw [if_pos h3] at hsel
          refine ih (some (cand, mv, fit cand)) ?_ c m f hsel
          intro c2 m2 f2 heq hm2
          cases heq
          refine ⟨not_le.mp (fun hle => h1 ⟨hm2, hle⟩), ?_⟩
          exact not_not.mp (fun hnl => h2 ⟨hm2, hnl⟩)
        · rw [if_neg h3] at hsel
          exact ih acc hacc c m f hsel

/-- Claim C2 (amended): in the candidate loop of `TabuSearch::run`, a
candidate whose move is tabu survives only when BOTH its score is
strictly below the best-so-far score AND its score plus the aspiration
margin 1.0 is below the current individual's score; aspiration alone
does not suffice.  First conjunct: a selected tabu move satisfies both
conditions.  Second conjunct: the exact per-candidate filter — a lone
candidate is dropped precisely when its move is tabu and its score
fails either the best-so-far test or the aspiration test. -/
theorem claim2_tabu_aspiration {I M : Type} [DecidableEq M]
    (fit : I → Rat) (tabu : List M) (bestF : Rat) (curr : I) :
    (∀ (neigh : List (I × M)) (c : I) (m : M) (f : Rat),
      selectCandidate fit tabu bestF curr neigh none = some (c, m, f) →
      m ∈ tabu → fit c < bestF ∧ fit c + 1 < fit curr) ∧
    (∀ (cand : I) (mv : M),
      selectCandidate fit tabu bestF curr [(cand, mv)] none =
        if (mv ∈ tabu ∧ bestF ≤ fit cand) ∨
            (mv ∈ tabu ∧ ¬ (fit cand + 1 < fit curr)) then none
        else some (cand, mv, fit cand)) := by
  constructor
  · intro neigh c m f hsel hm
    refine selectCandidate_some_inv fit tabu bestF curr neigh none
      ?_ c m f hsel hm
    intro c2 m2 f2 heq
    exact absurd heq (Option.noConfusion)
  · intro cand mv
    by_cases hm : mv ∈ tabu
    · by_cases h1 : bestF ≤ fit cand
      · simp [selectCandidate, hm, h1]
      · by_cases h2 : fit cand + 1 < fit curr
        · simp [selectCandidate, betterThan, hm, h1, h2]
        · simp [selectCandidate, hm, h1, h2]
    · simp [selectCandidate, betterThan, hm]

/-- Witness for claim C2: with tabu list `[5]`, best-so-far score 1 and
current individual 9 (fitness 10), the tabu candidate 0 (fitness 0) is
selected, and the theorem yields that its score beats both the
best-so-far and the aspiration margin. -/
theorem claim2_witness : fitW 0 < 1 ∧ fitW 0 + 1 < fitW 9 :=
  (claim2_tabu_aspiration fitW [5] 1 9).1 [(0, 5)] 0 5 0
    (by norm_num [selectCandidate, fitW, betterThan]) (by decide)

/-- Claim C2 counterexample: a candidate whose move is tabu and which
satisfies the aspiration test (score 0, margin 1, current score 10) is
nevertheless skipped — not selected — because its score is not strictly
below the best-so-far score 0; so aspiration alone does not make a tabu
candidate eligible, contrary to the claim. -/
theorem claim2_counterexample :
    selectCandidate fitW [7] 0 9 [(0, 7)] none = none ∧
    fitW 0 + 1 < fitW 9 := by
  constructor
  · norm_num [selectCandidate, fitW, betterThan]
  · norm_num [fitW]

theorem pushTabu_length_le {M : Type} (tabu : List M) (L : Nat) (mv : M)
    (hL : 1 ≤ L) (h : tabu.length ≤ L) :
    (pushTabu tabu L mv).length ≤ L := by
  unfold pushTabu
  by_cases he : tabu.length = L
  · rw [if_pos he]
    simp only [List.length_append, List.length_tail, List.length_singleton]
    omega
  · rw [if_neg he]
    simp only [List.length_append, List.length_singleton]
    omega

theorem tabuAdvance_length_le {I M : Type} (tabu : List M) (L : Nat)
    (curr : I) (o : Option (I × M × Rat)) (hL : 1 ≤ L)
    (h : tabu.length ≤ L) :
    (tabuAdvance tabu L curr o).2.length ≤ L := by
  match o with
  | none => exact h
  | some (ind, mv, f) => exact pushTabu_length_le tabu L mv hL h

theorem tabuIter_tabu_le {I M : Type} [DecidableEq M] (P : TSP I M)
    (ns L : Nat) (st : TabuState I M) (it : Nat) (hL : 1 ≤ L)
    (h : st.tabu.length ≤ L) :
    (tabuIter P ns L st it).tabu.length ≤ L := by
  unfold tabuIter
  dsimp only
  by_cases hr : it % 10000 = 0 ∧ it ≠ 0
  · rw [if_pos hr]
    exact Nat.zero_le L
  · rw [if_neg hr]
    exact tabuAdvance_length_le st.tabu L st.curr _ hL h

/-- Claim C7 (amended): for every problem instantiation, seed and
configuration with tabu capacity at least 1, the tabu queue's length
never exceeds the capacity at any point of a `TabuSearch::run` — the
push evicts the oldest entry when the queue is at capacity.  (Capacity 0
is the exception refuted by the counterexample: the eviction test
`len == tabu_len` only fires on the empty queue, so the queue grows past
the capacity.) -/
theorem claim7_tabu_bounded {I M : Type} [DecidableEq M] (P : TSP I M)
    (stdRng : Nat → Nat → Nat) (neighSize tabuLen seed : Nat)
    (hL : 1 ≤ tabuLen) :
    ∀ k : Nat,
      (tabuStateAfter P stdRng neighSize tabuLen seed k).tabu.length ≤
        tabuLen := by
  intro k
  induction k with
  | zero => exact Nat.zero_le tabuLen
  | succ n ih =>
    exact tabuIter_tabu_le P neighSize tabuLen _ n hL ih

/-- Witness for claim C7: a concrete run with capacity 1 keeps the
queue length at most 1 after three iterations. -/
theorem claim7_witness :
    (tabuStateAfter P0 stdRng0 1 1 0 3).tabu.length ≤ 1 :=
  claim7_tabu_bounded P0 stdRng0 1 1 0 (by decide) 3

/-- Claim C7 counterexample: with configured capacity 0 the queue holds
2 moves after two iterations of a concrete run, exceeding the capacity —
the claim fails for capacity 0. -/
theorem claim7_counterexample :
    (tabuStateAfter P0 stdRng0 1 0 0 2).tabu.length = 2 := by
  decide

theorem getD_append_lt {α : Type _} :
    ∀ (l l2 : List α) (i : Nat) (d : α), i < l.length →
      (l ++ l2).getD i d = l.getD i d := by
  intro l
  induction l with
  | nil => intro l2 i d h; exact absurd h (Nat.not_lt_zero i)
  | cons x xs ih =>
    intro l2 i d h
    cases i with
    | zero => rfl
    | succ n =>
      rw [List.cons_append, List.getD_cons_succ, List.getD_cons_succ]
      exact ih l2 n d (Nat.lt_of_succ_lt_succ h)

theorem getD_append_len {α : Type _} :
    ∀ (l : List α) (x : α) (d : α), (l ++ [x]).getD l.length d = x := by
  intro l
  induction l with
  | nil => intro x d; rfl
  | cons y ys ih =>
    intro x d
    rw [List.cons_append, List.length_cons, List.getD_cons_succ]
    exact ih x d

theorem traceNonInc_snoc (l : List (Nat × Rat)) (x : Nat × Rat) (bF : Rat)
    (h1 : traceNonInc l)
    (h2 : ∀ i : Nat, i < l.length → bF ≤ (l.getD i (0, 0)).2)
    (h3 : x.2 ≤ bF) : traceNonInc (l ++ [x]) := by
  intro i j hij hj
  rw [List.length_append, List.length_singleton] at hj
  by_cases hjl : j < l.length
  · have hil : i < l.length := lt_of_le_of_lt hij hjl
    rw [getD_append_lt l [x] j (0, 0) hjl, getD_append_lt l [x] i (0, 0) hil]
    exact h1 i j hij hjl
  · have hj2 : j = l.length := by omega
    subst hj2
    rw [getD_append_len l x (0, 0)]
    by_cases hil : i < l.length
    · rw [getD_append_lt l [x] i (0, 0) hil]
      exact le_trans h3 (h2 i hil)
    · have hi2 : i = l.length := by omega
      subst hi2
      rw [getD_append_len l x (0, 0)]

theorem getD_append_eq {α : Type _} (l : List α) (x d : α) (i : Nat)
    (h : i = l.length) : (l ++ [x]).getD i d = x := by
  subst h
  exact getD_append_len l x d

theorem tabuIter_bestF_le {I M : Type} [DecidableEq M] (P : TSP I M)
    (ns L : Nat) (st : TabuState I M) (it : Nat) :
    (tabuIter P ns L st it).bestF ≤ st.bestF := by
  simp only [tabuIter]
  split
  next h => exact le_of_lt h
  next => exact le_refl _

theorem tabuIter_trace_eq {I M : Type} [DecidableEq M] (P : TSP I M)
    (ns L : Nat) (st : TabuState I M) (it : Nat) :
    (tabuIter P ns L st it).trace =
      st.trace ++ [(it, (tabuIter P ns L st it).bestF)] := by
  simp only [tabuIter]

theorem tabuStateAfter_trace_inv {I M : Type} [DecidableEq M]
    (P : TSP I M) (stdRng : Nat → Nat → Nat) (ns L seed : Nat) :
    ∀ k : Nat,
      (tabuStateAfter P stdRng ns L seed k).trace.length = k ∧
      traceNonInc (tabuStateAfter P stdRng ns L seed k).trace ∧
      ∀ i : Nat, i < (tabuStateAfter P stdRng ns L seed k).trace.length →
        (tabuStateAfter P stdRng ns L seed k).bestF ≤
          ((tabuStateAfter P stdRng ns L seed k).trace.getD i (0, 0)).2 := by
  intro k
  induction k with
  | zero =>
    refine ⟨rfl, ?_, ?_⟩
    · intro i j _ hj
      exact absurd hj (Nat.not_lt_zero j)
    · intro i hi
      exact absurd hi (Nat.not_lt_zero i)
  | succ n ih =>
    obtain ⟨ihlen, ihmono, ihbest⟩ := ih
    have hstep : tabuStateAfter P stdRng ns L seed (n + 1) =
        tabuIter P ns L (tabuStateAfter P stdRng ns L seed n) n := rfl
    have hble :=
      tabuIter_bestF_le P ns L (tabuStateAfter P stdRng ns L seed n) n
    have htr :=
      tabuIter_trace_eq P ns L (tabuStateAfter P stdRng ns L seed n) n
    rw [hstep]
    refine ⟨?_, ?_, ?_⟩
    · rw [htr, List.length_append, List.length_singleton, ihlen]
    · rw [htr]
      refine traceNonInc_snoc _ _ (tabuStateAfter P stdRng ns L seed n).bestF
        ihmono ?_ hble
      intro i hi
      exact ihbest i hi
    · intro i hi
      rw [htr] at hi ⊢
      rw [List.length_append, List.length_singleton, ihlen] at hi
      by_cases hil : i < n
      · rw [getD_append_lt _ _ i (0, 0) (by rw [ihlen]; exact hil)]
        exact le_trans hble (ihbest i (by rw [ihlen]; exact hil))
      · have hieq : i = n := by omega
        subst hieq
        rw [getD_append_eq _ _ (0, 0) i ihlen.symm]

theorem gaStep_progress_eq (sc : Scoring) (cfg : GACfg) (st : GAState)
    (i : Nat) :
    (gaStep sc cfg st i).progress.length = st.progress.length + 1 := by
  unfold gaStep
  dsimp only
  rw [List.length_append, List.length_singleton]

theorem gaStateAfter_progress_length (sc : Scoring) (cfg : GACfg)
    (stdRng : Nat → Nat → Nat) (seed : Nat) :
    ∀ k : Nat, (gaStateAfter sc cfg stdRng seed k).progress.length = k := by
  intro k
  induction k with
  | zero => rfl
  | succ n ih =>
    show (gaStep sc cfg (gaStateAfter sc cfg stdRng seed n) n).progress.length
      = n + 1
    rw [gaStep_progress_eq, ih]

/-- Claim C8: the trace of `TabuSearch::run` has exactly one entry per
configured iteration and its best-score component is non-increasing
across iterations, and the progress trace of `GeneticAlgorithm::run`
has exactly one entry per configured generation (the hypotheses keep
the baseline GA away from the inputs on which the Rust code panics:
empty population, empty tournament, or a single-point cut range on
sequences shorter than 2). -/
theorem claim8_trace_lengths {I M : Type} [DecidableEq M] (P : TSP I M)
    (stdRng : Nat → Nat → Nat) (iterations neighSize tabuLen seed : Nat)
    (sc : Scoring) (cfg : GACfg) (stdRng2 : Nat → Nat → Nat) (seed2 : Nat)
    (hpop : 0 < cfg.populationSize) (htour : 0 < cfg.tournamentSize)
    (hlen : 2 ≤ motifLen sc) :
    (tabuRun P stdRng iterations neighSize tabuLen seed).2.length =
      iterations ∧
    traceNonInc (tabuRun P stdRng iterations neighSize tabuLen seed).2 ∧
    (gaRun sc cfg stdRng2 seed2).2.length = cfg.generations := by
  obtain ⟨hl, hm, _⟩ :=
    tabuStateAfter_trace_inv P stdRng neighSize tabuLen seed iterations
  exact ⟨hl, hm, gaStateAfter_progress_length sc cfg stdRng2 seed2
    cfg.generations⟩

/-- Witness for claim C8 at a concrete problem, scoring and
configuration. -/
theorem claim8_witness :
    (tabuRun P0 stdRng0 2 1 1 0).2.length = 2 ∧
    traceNonInc (tabuRun P0 stdRng0 2 1 1 0).2 ∧
    (gaRun exScoring gaCfg0 stdRng0 0).2.length = 1 :=
  claim8_trace_lengths P0 stdRng0 2 1 1 0 exScoring gaCfg0 stdRng0 0
    (by decide) (by decide) (by decide)

theorem genRange_lt (r : Rng) (n : Nat) (h : 0 < n) :
    (genRange r n).1 < n :=
  Nat.mod_lt _ h

theorem genRangeNeAux_lt (n avoid : Nat) (h : 0 < n) :
    ∀ (fuel : Nat) (r : Rng), (genRangeNeAux n avoid fuel r).1 < n := by
  intro fuel
  induction fuel with
  | zero => intro r; exact Nat.mod_lt _ h
  | succ m ih =>
    intro r
    rw [genRangeNeAux]
    by_cases he : (genRange r n).1 = avoid
    · rw [if_pos he]
      exact ih _
    · rw [if_neg he]
      exact genRange_lt r n h

theorem genRangeNe_lt (r : Rng) (n avoid : Nat) (h : 0 < n) :
    (genRangeNe r n avoid).1 < n :=
  genRangeNeAux_lt n avoid h 20 r

/-- Claim C9: every `(candidate, move)` pair produced by
`PeptideProblem::neighbourhood` from a (nonempty) individual is coherent
with `PeptideProblem::apply_move` — applying the recorded move to the
original individual reproduces the recorded candidate exactly.  (On the
empty individual the Rust substitution branch panics before returning.) -/
theorem claim9_neighbourhood_apply_coherent :
    ∀ (size : Nat) (r : Rng) (ind : List Nat), ind ≠ [] →
      ∀ (cand : List Nat) (mv : Move),
        (cand, mv) ∈ (neighbourhoodP size r ind).1 →
        applyMove ind mv = some cand := by
  intro size
  induction size with
  | zero =>
    intro r ind _ cand mv hmem
    rw [neighbourhoodP] at hmem
    exact absurd hmem (List.not_mem_nil _)
  | succ k ih =>
    intro r ind hne cand mv hmem
    have hpos : 0 < ind.length := List.length_pos.mpr hne
    rw [neighbourhoodP] at hmem
    by_cases hg : (nextRat r).1 < 7/10
    · rw [if_pos hg] at hmem
      rw [List.mem_cons] at hmem
      rcases hmem with heq | hmem
      · rw [Prod.mk.injEq] at heq
        obtain ⟨h1, h2⟩ := heq
        subst h1
        subst h2
        have hlt := genRange_lt (nextRat r).2 ind.length hpos
        simp only [applyMove]
        rw [if_pos hlt]
      · exact ih _ ind hne cand mv hmem
    · rw [if_neg hg] at hmem
      by_cases hlen : 2 ≤ ind.length
      · rw [if_pos hlen] at hmem
        rw [List.mem_cons] at hmem
        rcases hmem with heq | hmem
        · rw [Prod.mk.injEq] at heq
          obtain ⟨h1, h2⟩ := heq
          subst h1
          subst h2
          have hlt1 := genRange_lt (nextRat r).2 ind.length hpos
          have hlt2 := genRangeNe_lt (genRange (nextRat r).2 ind.length).2
            ind.length (genRange (nextRat r).2 ind.length).1 hpos
          simp only [applyMove]
          rw [if_pos ⟨hlt1, hlt2⟩]
        · exact ih _ ind hne cand mv hmem
      · rw [if_neg hlen] at hmem
        exact ih _ ind hne cand mv hmem

/-- Witness for claim C9: the first neighbour generated from `[1, 2]`
under the all-zero stream is `[0, 2]` with recorded move
`Subst 0 1 0`, and applying that move to `[1, 2]` indeed yields
`[0, 2]`. -/
theorem claim9_witness : applyMove [1, 2] (Move.Subst 0 1 0) = some [0, 2] :=
  claim9_neighbourhood_apply_coherent 1 (rngOf z0) [1, 2] (by decide)
    [0, 2] (Move.Subst 0 1 0)
    (by norm_num [neighbourhoodP, nextRat, genRange, genRangeNe,
      genRangeNeAux, Rng.next, rngOf, z0])

theorem hcInner_spec (sc : Scoring) (s : List Nat) (pos : Nat) (b : Rat) :
    ((hcInner sc s pos (s.getD pos 0) b).1 = s.getD pos 0 ∧
      (hcInner sc s pos (s.getD pos 0) b).2 = b) ∨
    (isBiologicallyValid (s.set pos (hcInner sc s pos (s.getD pos 0) b).1)
        = true ∧
      (hcInner sc s pos (s.getD pos 0) b).2 =
        combinedFitness sc
          (s.set pos (hcInner sc s pos (s.getD pos 0) b).1) ∧
      (hcInner sc s pos (s.getD pos 0) b).2 ≤ b) := by
  unfold hcInner
  apply foldl_preserve (fun acc : Nat × Rat =>
    (acc.1 = s.getD pos 0 ∧ acc.2 = b) ∨
    (isBiologicallyValid (s.set pos acc.1) = true ∧
      acc.2 = combinedFitness sc (s.set pos acc.1) ∧ acc.2 ≤ b))
  · intro acc aa _ hacc
    by_cases h1 : aa = s.getD pos 0
    · simp only [if_pos h1]
      exact hacc
    · simp only [if_neg h1]
      by_cases h2 : isBiologicallyValid (s.set pos aa) = true
      · simp only [if_pos h2]
        by_cases h3 : combinedFitness sc (s.set pos aa) < acc.2
        · simp only [if_pos h3]
          have hacc2 : acc.2 ≤ b := by
            rcases hacc with ⟨_, he⟩ | ⟨_, _, hle⟩
            · exact le_of_eq he
            · exact hle
          right
          exact ⟨h2, by trivial, le_trans (le_of_lt h3) hacc2⟩
        · simp only [if_neg h3]
          exact hacc
      · simp only [if_neg h2]
        exact hacc
  · left
    exact ⟨rfl, rfl⟩

theorem hcStep_inv (sc : Scoring) (n0 : Nat) (f0 : Rat)
    (acc : List Nat × Rat) (pos : Nat) (hpos : pos < n0)
    (h : acc.1.length = n0 ∧ isBiologicallyValid acc.1 = true ∧
      acc.2 = combinedFitness sc acc.1 ∧ acc.2 ≤ f0) :
    (hcStep sc acc pos).1.length = n0 ∧
    isBiologicallyValid (hcStep sc acc pos).1 = true ∧
    (hcStep sc acc pos).2 = combinedFitness sc (hcStep sc acc pos).1 ∧
    (hcStep sc acc pos).2 ≤ f0 := by
  obtain ⟨hlen, hval, hfit, hle⟩ := h
  have hpos2 : pos < acc.1.length := by rw [hlen]; exact hpos
  have hspec := hcInner_spec sc acc.1 pos acc.2
  simp only [hcStep]
  rcases hspec with ⟨h1, h2⟩ | ⟨hv, hf, hb⟩
  · rw [h1, set_getD_self acc.1 pos hpos2, h2]
    exact ⟨hlen, hval, hfit, hle⟩
  · refine ⟨?_, hv, hf, le_trans hb hle⟩
    rw [List.length_set]
    exact hlen

theorem hillClimb_inv (sc : Scoring) (seq : List Nat)
    (h : isBiologicallyValid seq = true) :
    isBiologicallyValid (hillClimbOptimize sc seq) = true ∧
    combinedFitness sc (hillClimbOptimize sc seq) ≤
      combinedFitness sc seq := by
  unfold hillClimbOptimize
  have hinv := foldl_preserve (fun acc : List Nat × Rat =>
      acc.1.length = seq.length ∧ isBiologicallyValid acc.1 = true ∧
      acc.2 = combinedFitness sc acc.1 ∧ acc.2 ≤ combinedFitness sc seq)
    (hcStep sc) (List.range seq.length)
    (fun b a ha hb =>
      hcStep_inv sc seq.length (combinedFitness sc seq) b a
        (List.mem_range.mp ha) hb)
    (seq, combinedFitness sc seq) ⟨rfl, h, rfl, le_refl _⟩
  obtain ⟨_, hv, hf, hle⟩ := hinv
  refine ⟨hv, ?_⟩
  rw [← hf]
  exact hle

/-- Claim C10: for every input sequence that already passes
`is_biologically_valid`, `hill_climb_optimize` returns a sequence that
still passes the predicate and whose combined fitness is less than or
equal to the input's combined fitness, for every scoring
configuration. -/
theorem claim10_hill_climb_improves (sc : Scoring) (seq : List Nat)
    (h : isBiologicallyValid seq = true) :
    isBiologicallyValid (hillClimbOptimize sc seq) = true ∧
    combinedFitness sc (hillClimbOptimize sc seq) ≤
      combinedFitness sc seq :=
  hillClimb_inv sc seq h

/-- Witness for claim C10 at the concrete valid sequence `[0, 1, 2]`. -/
theorem claim10_witness :
    isBiologicallyValid [0, 1, 2] = true ∧
    (isBiologicallyValid (hillClimbOptimize exScoring [0, 1, 2]) = true ∧
      combinedFitness exScoring (hillClimbOptimize exScoring [0, 1, 2]) ≤
        combinedFitness exScoring [0, 1, 2]) := by
  have h : isBiologicallyValid [0, 1, 2] = true := by
    norm_num [isBiologicallyValid, HYDROPATHY, hasForbiddenPair, noRun4,
      noRun4Go]
  exact ⟨h, claim10_hill_climb_improves exScoring [0, 1, 2] h⟩

/-- Claim C5 (amended): for every input sequence that already passes
`is_biologically_valid`, one pass of `hill_climb_optimize` returns a
sequence that passes the predicate.  (The unconditional statement fails:
on an invalid input every candidate substitution may be rejected or
non-improving, leaving the sequence invalid, as the counterexample
shows on the empty sequence.) -/
theorem claim5_hill_climb_valid_of_valid (sc : Scoring) (seq : List Nat)
    (h : isBiologicallyValid seq = true) :
    isBiologicallyValid (hillClimbOptimize sc seq) = true :=
  (hillClimb_inv sc seq h).1

/-- Witness for claim C5 at the concrete valid sequence `[0, 1, 3]`. -/
theorem claim5_witness :
    isBiologicallyValid [0, 1, 3] = true ∧
    isBiologicallyValid (hillClimbOptimize exScoring [0, 1, 3]) = true := by
  have h : isBiologicallyValid [0, 1, 3] = true := by
    norm_num [isBiologicallyValid, HYDROPATHY, hasForbiddenPair, noRun4,
      noRun4Go]
  exact ⟨h, claim5_hill_climb_valid_of_valid exScoring [0, 1, 3] h⟩

/-- Claim C5 counterexample: on the empty input sequence,
`hill_climb_optimize` performs no position pass and returns the empty
sequence, which fails `is_biologically_valid` — so the output does not
always pass the domain-validity predicate. -/
theorem claim5_counterexample :
    hillClimbOptimize exScoring [] = [] ∧
    isBiologicallyValid [] = false := by
  exact ⟨rfl, rfl⟩

theorem bestIdxGo_lt :
    ∀ (rest : List Rat) (i bi : Nat) (bf : Rat), bi < i →
      bestIdxGo i bi bf rest < i + rest.length := by
  intro rest
  induction rest with
  | nil =>
    intro i bi bf h
    rw [bestIdxGo]
    simpa using h
  | cons f rest ih =>
    intro i bi bf h
    rw [bestIdxGo]
    by_cases hf : f < bf
    · rw [if_pos hf]
      have := ih (i + 1) i f (Nat.lt_succ_self i)
      rw [List.length_cons]
      omega
    · rw [if_neg hf]
      have := ih (i + 1) bi bf (Nat.lt_succ_of_lt h)
      rw [List.length_cons]
      omega

theorem bestIdx_lt (fit : List Rat) (h : fit ≠ []) :
    bestIdx fit < fit.length := by
  match fit with
  | [] => exact absurd rfl h
  | f :: rest =>
    rw [bestIdx, List.length_cons]
    have := bestIdxGo_lt rest 1 0 f Nat.one_pos
    omega

theorem elitismFix_eq (nextPop : List (List Nat)) (fit : List Rat)
    (r : Rng) (hne : nextPop ≠ []) (hlen : fit.length = nextPop.length) :
    elitismFix nextPop fit r = (nextPop, r) := by
  unfold elitismFix
  have hfitne : fit ≠ [] := by
    intro hh
    rw [hh] at hlen
    exact hne (List.eq_nil_of_length_eq_zero hlen.symm)
  have hid : bestIdx fit < nextPop.length := by
    rw [← hlen]
    exact bestIdx_lt fit hfitne
  have hmem := getD_mem nextPop (bestIdx fit) [] hid
  rw [if_pos hmem]

theorem buildNextPop_length (sc : Scoring) (cfg : NeighCfg)
    (pop : List (List Nat)) (fit : List Rat) :
    ∀ (fuel : Nat) (acc : List (List Nat)) (r : Rng),
      acc.length ≤ cfg.popSize → cfg.popSize ≤ acc.length + fuel →
      (buildNextPop sc cfg pop fit fuel acc r).1.length = cfg.popSize := by
  intro fuel
  induction fuel with
  | zero =>
    intro acc r h1 h2
    rw [buildNextPop]
    dsimp only
    omega
  | succ n ih =>
    intro acc r h1 h2
    simp only [buildNextPop]
    by_cases hlt : acc.length < cfg.popSize
    · rw [if_pos hlt]
      have hl1 : (acc ++ [(makeChildren sc cfg pop fit r).1.1]).length =
          acc.length + 1 := by simp
      by_cases h2lt :
          (acc ++ [(makeChildren sc cfg pop fit r).1.1]).length <
            cfg.popSize
      · rw [if_pos h2lt]
        have hl2 : ((acc ++ [(makeChildren sc cfg pop fit r).1.1]) ++
            [(makeChildren sc cfg pop fit r).1.2]).length =
            acc.length + 2 := by simp
        apply ih
        · omega
        · omega
      · rw [if_neg h2lt]
        apply ih
        · omega
        · omega
    · rw [if_neg hlt]
      dsimp only
      omega

/-- Claim C3: after `NeighbourGA::step_generation` (with a positive
population size), the population's single best individual is present in
the population, and the population existing before the replacement step
— the freshly built next population — survives unchanged into the next
generation, so in particular its lowest-fitness individual does.  (The
elitism branch tests the best of the *new* population against that same
population, so it is always present and no slot is ever overwritten.) -/
theorem claim3_elitism (sc : Scoring) (st : NeighbourGA)
    (h : 0 < st.cfg.popSize) :
    (NeighbourGA.stepGeneration sc st).population =
      (buildNextPop sc st.cfg st.population st.fitness st.cfg.popSize []
        st.rng).1 ∧
    (buildNextPop sc st.cfg st.population st.fitness st.cfg.popSize []
          st.rng).1.getD
        (bestIdx ((buildNextPop sc st.cfg st.population st.fitness
          st.cfg.popSize [] st.rng).1.map (combinedFitness sc))) [] ∈
      (NeighbourGA.stepGeneration sc st).population ∧
    (NeighbourGA.stepGeneration sc st).population.getD
        (bestIdx (NeighbourGA.stepGeneration sc st).fitness) [] ∈
      (NeighbourGA.stepGeneration sc st).population := by
  have hlen : (buildNextPop sc st.cfg st.population st.fitness
      st.cfg.popSize [] st.rng).1.length = st.cfg.popSize :=
    buildNextPop_length sc st.cfg st.population st.fitness st.cfg.popSize
      [] st.rng (Nat.zero_le _) (by simp)
  have hne : (buildNextPop sc st.cfg st.population st.fitness
      st.cfg.popSize [] st.rng).1 ≠ [] := by
    intro hh
    rw [hh] at hlen
    simp at hlen
    omega
  have hmaplen : ((buildNextPop sc st.cfg st.population st.fitness
      st.cfg.popSize [] st.rng).1.map (combinedFitness sc)).length =
      (buildNextPop sc st.cfg st.population st.fitness st.cfg.popSize []
        st.rng).1.length := List.length_map _ _
  have hmapne : (buildNextPop sc st.cfg st.population st.fitness
      st.cfg.popSize [] st.rng).1.map (combinedFitness sc) ≠ [] := by
    intro hh
    exact hne (List.map_eq_nil.mp hh)
  have hef := elitismFix_eq
    (buildNextPop sc st.cfg st.population st.fitness st.cfg.popSize []
      st.rng).1
    ((buildNextPop sc st.cfg st.population st.fitness st.cfg.popSize []
      st.rng).1.map (combinedFitness sc))
    (buildNextPop sc st.cfg st.population st.fitness st.cfg.popSize []
      st.rng).2 hne hmaplen
  have hpop : (NeighbourGA.stepGeneration sc st).population =
      (buildNextPop sc st.cfg st.population st.fitness st.cfg.popSize []
        st.rng).1 := by
    show (elitismFix _ _ _).1 = _
    rw [hef]
  have hfit : (NeighbourGA.stepGeneration sc st).fitness =
      (buildNextPop sc st.cfg st.population st.fitness st.cfg.popSize []
        st.rng).1.map (combinedFitness sc) := rfl
  have hbm : bestIdx ((buildNextPop sc st.cfg st.population st.fitness
      st.cfg.popSize [] st.rng).1.map (combinedFitness sc)) <
      (buildNextPop sc st.cfg st.population st.fitness st.cfg.popSize []
        st.rng).1.length := by
    rw [← hmaplen]
    exact bestIdx_lt _ hmapne
  refine ⟨hpop, ?_, ?_⟩
  · rw [hpop]
    exact getD_mem _ _ [] hbm
  · rw [hpop, hfit]
    exact getD_mem _ _ [] hbm

/-- Witness for claim C3 at a concrete one-individual engine state. -/
theorem claim3_witness :
    (NeighbourGA.stepGeneration exScoring ngSt0).population =
      (buildNextPop exScoring ngSt0.cfg ngSt0.population ngSt0.fitness
        ngSt0.cfg.popSize [] ngSt0.rng).1 ∧
    (buildNextPop exScoring ngSt0.cfg ngSt0.population ngSt0.fitness
          ngSt0.cfg.popSize [] ngSt0.rng).1.getD
        (bestIdx ((buildNextPop exScoring ngSt0.cfg ngSt0.population
          ngSt0.fitness ngSt0.cfg.popSize [] ngSt0.rng).1.map
          (combinedFitness exScoring))) [] ∈
      (NeighbourGA.stepGeneration exScoring ngSt0).population ∧
    (NeighbourGA.stepGeneration exScoring ngSt0).population.getD
        (bestIdx (NeighbourGA.stepGeneration exScoring ngSt0).fitness) [] ∈
      (NeighbourGA.stepGeneration exScoring ngSt0).population :=
  claim3_elitism exScoring ngSt0 (by decide)

end PeptideOpt
